import Mathlib

/-!
# Benchmark statistics and round structure of `bench.cpp`

A shallow embedding of `src/frontends/src/bench.cpp`.

Modelling conventions.

* A C++ `double` is an exact rational (`ℚ`); rounding is not modelled.  A `double`
  division whose divisor is zero has no finite value; `fdiv` returns `none` there.
* A C++ `long` / `int` is a mathematical integer (`Int`); signed overflow is
  undefined behaviour in C++ and has no model here.
* `std::vector<long>` is `List Int`.  `measurements[i]` outside `0 ≤ i < size()` is an
  out-of-bounds read; it is the fault `Fault.out_of_bounds i size`.
* The query processor, the clock and the random generator are external; they are the
  fields of a `World`, and the functions pass its state explicitly.
-/

namespace Bench

/-! ## Faults -/

/-- Ways in which an execution of the program leaves its defined, normal path. -/
inductive Fault where
  /-- The `assert` of `compute_percentile` fails. -/
  | assertion_failed
  /-- The read `measurements[index]` on a vector of `size` elements, `index` not in range. -/
  | out_of_bounds (index : Int) (size : Nat)
  /-- The call `get()` on a future throws an exception that is not a
  `std::invalid_argument`; nothing in the program catches it. -/
  | future_failed
  /-- The call `get()` on a future throws a `std::invalid_argument`; the handler of
  `drive_benchmark` (line 125) catches it. -/
  | future_invalid_argument
  /-- The call `std::stoi` throws `std::out_of_range`; nothing in the program catches it. -/
  | out_of_range
  deriving DecidableEq, Repr

/-! ## Statistics (lines 23-61) -/

/-- Line 23: `constexpr int SLO_MICROS = 20000;` -/
def SLO_MICROS : Int := 20000

/-- Lines 25-30: the number of microseconds between two time points (each given as a
microsecond count). -/
def get_duration_micros (end_ start : Int) : Int := end_ - start

/-- Division of two `double`s: `none` when the divisor is zero (the IEEE result is an
infinity or a NaN, not a number). -/
def fdiv (a b : ℚ) : Option ℚ := if b = 0 then none else some (a / b)

/-- Lines 32-38: `compute_mean`. -/
def compute_mean (measurements : List Int) : Option ℚ :=
  let sum : ℚ := measurements.foldl (fun (sum : ℚ) (m : Int) => sum + (m : ℚ)) 0
  fdiv sum (measurements.length : ℚ)

/-- The read `measurements[index]`, `index` an `int`. -/
def at_index (measurements : List Int) (index : Int) : Except Fault Int :=
  if 0 ≤ index then
    match measurements[index.toNat]? with
    | some m => Except.ok m
    | none => Except.error (Fault.out_of_bounds index measurements.length)
  else Except.error (Fault.out_of_bounds index measurements.length)

/-- The function `std::fmod x y` for `y ≠ 0`: `x - y * trunc (x / y)`, the quotient
truncated towards zero. -/
def fmod (x y : ℚ) : ℚ :=
  let q := x / y
  x - y * (if 0 ≤ q then (⌊q⌋ : ℚ) else (⌈q⌉ : ℚ))

/-- Lines 45-53: the rank `x` of `compute_percentile`. -/
def percentile_rank (sample_size percentile : ℚ) : ℚ :=
  if percentile ≤ 1 / (sample_size + 1) then 1
  else if percentile > 1 / (sample_size + 1) ∧
      percentile < sample_size / (sample_size + 1) then
    percentile * (sample_size + 1)
  else sample_size

/-- Line 54: `int index = std::floor(x) - 1;` -/
def percentile_index (x : ℚ) : Int := ⌊x⌋ - 1

/-- Lines 40-61: `compute_percentile`. -/
def compute_percentile (measurements : List Int) (percentile : ℚ) : Except Fault ℚ :=
  -- sort in ascending order
  let measurements := measurements.insertionSort (· ≤ ·)
  let sample_size : ℚ := measurements.length
  if percentile ≥ 0 ∧ percentile ≤ 1 then
    let x := percentile_rank sample_size percentile
    let index := percentile_index x
    match at_index measurements index with
    | Except.error e => Except.error e
    | Except.ok value =>
      let remainder := fmod x 1
      if remainder ≠ 0 then
        match at_index measurements (index + 1), at_index measurements index with
        | Except.ok hi, Except.ok lo =>
          Except.ok ((value : ℚ) + remainder * ((hi - lo : Int) : ℚ))
        | Except.error e, _ => Except.error e
        | _, Except.error e => Except.error e
      else Except.ok (value : ℚ)
  else Except.error Fault.assertion_failed


/-- The interpolated value at rank `x` in an ascending vector `l`: what lines 54-60
compute when both reads are in range. -/
def interp (l : List Int) (x : ℚ) : ℚ :=
  (l.getD (⌊x⌋ - 1).toNat 0 : ℚ) +
    Int.fract x * ((l.getD ⌊x⌋.toNat 0 : ℚ) - (l.getD (⌊x⌋ - 1).toNat 0 : ℚ))

/-! ## The reference estimator of the specification (section 4.1) -/

/-- Spec 4.1, step 3: the rank `x`. -/
def spec_rank (n p : ℚ) : ℚ :=
  if p ≤ 1 / (n + 1) then 1
  else if p < n / (n + 1) then p * (n + 1)
  else n

/-- Spec 4.1: with `s` the ascending sort of the samples and `x` the rank, the value
`s[⌊x⌋ - 1] + frac x * (s[⌊x⌋] - s[⌊x⌋ - 1])`, the interpolation term being added only
when `frac x ≠ 0`.  (Reads are total here: a read outside the list gives `0`.) -/
def computePercentile_spec (samples : List Int) (p : ℚ) : ℚ :=
  let s := samples.mergeSort (fun a b => decide (a ≤ b))
  let n : ℚ := s.length
  let x := spec_rank n p
  let lo : ℚ := s.getD (⌊x⌋ - 1).toNat 0
  let hi : ℚ := s.getD ⌊x⌋.toNat 0
  if Int.fract x ≠ 0 then lo + Int.fract x * (hi - lo) else lo

/-! ## Data types of the query processor (declared in `clipper/datatypes.hpp`) -/

/-- Modelled from the spec: the type `Query` of `clipper/datatypes.hpp` (spec, section 3,
"Request envelope"): identifier, class count, payload, latency budget in microseconds,
routing-policy name, list of (model-name, version) pairs, in the order of the constructor
call at line 77. -/
structure Query where
  label_ : String
  user_id_ : Int
  input_ : List ℚ
  latency_micros_ : Int
  selection_policy_ : String
  candidate_models_ : List (String × Int)
  deriving DecidableEq

/-- Modelled from the spec: the type of `Response::output_` in `clipper/datatypes.hpp`;
only the field `y_hat_` read at line 95 ("a resulting scalar output value"). -/
structure Output where
  y_hat_ : ℚ
  deriving DecidableEq

/-- Modelled from the spec: the type `Response` of `clipper/datatypes.hpp` (spec, section 3):
the elapsed time in microseconds measured by the backend, and the output. -/
structure Response where
  duration_micros_ : Int
  output_ : Output
  deriving DecidableEq

/-- The external collaborators of the benchmark, over a world state `σ`, a type `φ` of
futures and a type `γ` of random generators.  Every call takes the world state and returns
the next one. -/
structure World (σ φ γ : Type) where
  /-- The call `std::chrono::high_resolution_clock::now()`, in microseconds. -/
  now : σ → σ × Int
  /-- The call `std::time(0)`. -/
  time : σ → Nat
  /-- The constructor `boost::random::mt19937 gen(seed)`. -/
  mt19937 : Nat → γ
  /-- One draw `dist(gen)` from `uniform_real_distribution<>(0.0, 1.0)`. -/
  dist : γ → ℚ × γ
  /-- The call `qp.predict(query)`: never blocks, returns a future. -/
  predict : σ → Query → σ × φ
  /-- The call `p->get()`: blocks until the future resolves with a response (`some`), or
  throws (`none`). -/
  get : σ → φ → Option (σ × Response)
  /-- When `p->get()` throws: whether the exception is a `std::invalid_argument`, the one
  type that the handler of `drive_benchmark` (line 125) catches. -/
  throws_invalid_argument : σ → φ → Bool
  /-- The call `std::this_thread::sleep_for(std::chrono::seconds(k))`. -/
  sleep_for : Nat → σ → σ

/-! ## Query generation (lines 63-78) -/

/-- Lines 67-69: the loop of `generate_rand_doublevec`, `k` iterations left. -/
def rand_loop {σ φ γ : Type} (w : World σ φ γ) : Nat → List ℚ → γ → List ℚ × γ
  | 0, input, gen => (input, gen)
  | k + 1, input, gen => rand_loop w k (input ++ [(w.dist gen).1]) (w.dist gen).2

/-- Lines 63-71: `generate_rand_doublevec`. -/
def generate_rand_doublevec {σ φ γ : Type} (w : World σ φ γ) (input_len : Int) (gen : γ) :
    List ℚ × γ :=
  rand_loop w input_len.toNat [] gen

/-- Lines 73-78: `generate_query`. -/
def generate_query {σ φ γ : Type} (w : World σ φ γ) (input_len : Int) (gen : γ) : Query × γ :=
  let input := generate_rand_doublevec w input_len gen
  let models : List (String × Int) := [("m", 1), ("j", 1)]
  (⟨"bench", 3, input.1, SLO_MICROS, "simple_policy", models⟩, input.2)

/-! ## One benchmark round (lines 80-112) -/

/-- The calls a round makes to the query processor, in program order. -/
inductive Event (φ : Type) where
  /-- The call `qp.predict(..)` returned the future. -/
  | submit (future : φ)
  /-- The call `get()` on the future. -/
  | await (future : φ)
  deriving DecidableEq

/-- The state of the two loops of `run_benchmark`: the world, the log of the calls made so
far, and the local variables `gen`, `preds`, `durations`, `completed_tasks_sum`. -/
structure Locals (σ φ γ : Type) where
  state : σ
  log : List (Event φ)
  gen : γ
  preds : List φ
  durations : List Int
  completed_tasks_sum : ℚ

/-- Lines 85-87: the submission loop, `k` iterations left. -/
def submit_loop {σ φ γ : Type} (w : World σ φ γ) : Nat → Locals σ φ γ → Locals σ φ γ
  | 0, l => l
  | k + 1, l =>
    let query := generate_query w 1000 l.gen
    let sent := w.predict l.state query.1
    submit_loop w k
      { l with state := sent.1, log := l.log ++ [Event.submit sent.2], gen := query.2,
               preds := l.preds ++ [sent.2] }

/-- Lines 92-96: the collection loop over the futures still to be awaited.  The second
component is `none` when the loop ended normally, and the exception when a `get()` threw. -/
def await_loop {σ φ γ : Type} (w : World σ φ γ) :
    List φ → Locals σ φ γ → Locals σ φ γ × Option Fault
  | [], l => (l, none)
  | p :: rest, l =>
    match w.get l.state p with
    | none =>
      ({ l with log := l.log ++ [Event.await p] },
        some (if w.throws_invalid_argument l.state p then Fault.future_invalid_argument
          else Fault.future_failed))
    | some (s, r) =>
      await_loop w rest
        { l with state := s, log := l.log ++ [Event.await p],
                 durations := l.durations ++ [r.duration_micros_],
                 completed_tasks_sum := l.completed_tasks_sum + r.output_.y_hat_ }

/-- What lines 105-111 print. -/
structure Report where
  num_requests : Int
  benchmark_time_secs : ℚ
  thruput : Option ℚ
  p99 : ℚ
  mean_lat : Option ℚ
  mean_tasks_completed : Option ℚ
  deriving DecidableEq

/-- The outcome of one call of `run_benchmark`: the world after it, the calls it made to the
query processor, the samples it collected, and its report or the fault that ended it. -/
structure Round (σ φ : Type) where
  state : σ
  trace : List (Event φ)
  durations : List Int
  result : Except Fault Report

/-- Lines 81-87: the locals of `run_benchmark` when the submission loop has ended. -/
def after_submit {σ φ γ : Type} (w : World σ φ γ) (s : σ) (num_requests : Int) : Locals σ φ γ :=
  submit_loop w num_requests.toNat ⟨(w.now s).1, [], w.mt19937 (w.time s), [], [], 0⟩

/-- Lines 97-111: the end of the round, from the locals `l` at the end of the collection
loop; `start` is the clock reading of line 83. -/
def report_round {σ φ γ : Type} (w : World σ φ γ) (num_requests : Int) (start : Int)
    (l : Locals σ φ γ) : Round σ φ :=
  let end_ := w.now l.state
  let benchmark_time_secs : ℚ := (get_duration_micros end_.2 start : ℚ) / 1000 / 1000
  let thruput := fdiv (num_requests : ℚ) benchmark_time_secs
  match compute_percentile l.durations (99 / 100) with
  | Except.error e => ⟨end_.1, l.log, l.durations, Except.error e⟩
  | Except.ok p99 =>
    let mean_lat := compute_mean l.durations
    ⟨end_.1, l.log, l.durations,
      Except.ok ⟨num_requests, benchmark_time_secs, thruput, p99, mean_lat,
        fdiv l.completed_tasks_sum (num_requests : ℚ)⟩⟩

/-- Lines 80-112: `run_benchmark`.  A `get()` that throws ends the round at once; the
exception leaves `run_benchmark`. -/
def run_benchmark {σ φ γ : Type} (w : World σ φ γ) (s : σ) (num_requests : Int) : Round σ φ :=
  let sent := after_submit w s num_requests
  let got := await_loop w sent.preds sent
  match got.2 with
  | some e => ⟨got.1.state, got.1.log, got.1.durations, Except.error e⟩
  | none => report_round w num_requests (w.now s).2 got.1

/-! ## The driver (lines 114-129) -/

/-- The three outcomes of `std::stoi`. -/
inductive StoiResult where
  | value (n : Int)
  | invalid_argument
  | out_of_range
  deriving DecidableEq

/-- The C function `isspace` in the "C" locale: space, and the characters 9 to 13. -/
def isspace (c : Char) : Bool := c.toNat = 32 || (9 ≤ c.toNat && c.toNat ≤ 13)

/-- The library function `std::stoi(str)` (base 10, 32-bit `int`): leading white space is
skipped, then an optional sign, then the longest run of decimal digits is converted; what
follows is ignored.  No digit: `std::invalid_argument`.  Value outside the range of `int`:
`std::out_of_range`. -/
def stoi (str : String) : StoiResult :=
  let body := str.toList.dropWhile isspace
  let negative : Bool := body.head? = some '-'
  let unsigned := if body.head? = some '-' ∨ body.head? = some '+' then body.tail else body
  let digits := unsigned.takeWhile Char.isDigit
  if digits = [] then StoiResult.invalid_argument
  else
    let magnitude : Nat := digits.foldl (fun acc c => 10 * acc + (c.toNat - 48)) 0
    let n : Int := if negative then -(magnitude : Int) else (magnitude : Int)
    if n < -2147483648 ∨ 2147483647 < n then StoiResult.out_of_range
    else StoiResult.value n

/-- What the driver and its rounds write to the standard output. -/
inductive Printed where
  /-- The line "Please enter number of requests to make:". -/
  | prompt
  /-- The line "Running benchmark...". -/
  | running
  /-- The lines of one round (lines 105-111). -/
  | report (r : Report)
  /-- The empty line of line 124. -/
  | blank
  deriving DecidableEq

/-- The outcome of `drive_benchmark`: the world after it, what it printed, the arguments
of its calls of `run_benchmark` in order, and the fault that ended it (`none`: the input
was exhausted). -/
structure Driven (σ : Type) where
  state : σ
  out : List Printed
  calls : List Int
  fault : Option Fault

/-- Lines 119-128: the prompt loop over the lines still to be read.  The `try` block
(lines 120-126) encloses both `std::stoi` and `run_benchmark`: a `std::invalid_argument`
from either is caught and the loop prompts again; any other exception, and an out-of-bounds
read, end the program. -/
def drive_loop {σ φ γ : Type} (w : World σ φ γ) : List String → Driven σ → Driven σ
  | [], d => d
  | line :: rest, d =>
    match stoi line with
    | StoiResult.invalid_argument => drive_loop w rest { d with out := d.out ++ [Printed.prompt] }
    | StoiResult.out_of_range => { d with fault := some Fault.out_of_range }
    | StoiResult.value num_reqs =>
      let round := run_benchmark w d.state num_reqs
      match round.result with
      | Except.error Fault.future_invalid_argument =>
        drive_loop w rest
          { state := round.state, out := d.out ++ [Printed.running, Printed.prompt],
            calls := d.calls ++ [num_reqs], fault := none }
      | Except.error e =>
        { state := round.state, out := d.out ++ [Printed.running],
          calls := d.calls ++ [num_reqs], fault := some e }
      | Except.ok r =>
        drive_loop w rest
          { state := round.state,
            out := d.out ++ [Printed.running, Printed.report r, Printed.blank, Printed.prompt],
            calls := d.calls ++ [num_reqs], fault := none }

/-- Lines 114-129: `drive_benchmark`, from the world `s` in which `qp` has been constructed,
reading the lines `input` from the standard input. -/
def drive_benchmark {σ φ γ : Type} (w : World σ φ γ) (s : σ) (input : List String) : Driven σ :=
  drive_loop w input ⟨w.sleep_for 3 s, [Printed.prompt], [], none⟩

/-! ## Resolution of futures -/

/-- The futures `fs`, awaited in this order from the world `s`, all resolve: the responses
are `rs` and the world is then `t`. -/
inductive Resolves {σ φ γ : Type} (w : World σ φ γ) : σ → List φ → List Response → σ → Prop where
  | nil (s : σ) : Resolves w s [] [] s
  | cons {s s1 t : σ} {f : φ} {fs : List φ} {r : Response} {rs : List Response} :
      w.get s f = some (s1, r) → Resolves w s1 fs rs t → Resolves w s (f :: fs) (r :: rs) t

/-- A world for examples: the state counts the calls made, the clock shows the count, a
future is the number of the request, and every future resolves with 100 microseconds and
output 1. -/
def constant_world : World Nat Nat Nat where
  now := fun s => (s + 1, (s : Int))
  time := fun s => s
  mt19937 := fun seed => seed
  dist := fun g => (0, g + 1)
  predict := fun s _ => (s + 1, s)
  get := fun s _ => some (s + 1, ⟨100, ⟨1⟩⟩)
  throws_invalid_argument := fun _ _ => false
  sleep_for := fun _ s => s

/-! ## Helper lemmas -/

/-- The ascending sort used by the model. -/
theorem sort_sorted (l : List Int) : (l.insertionSort (· ≤ ·)).Sorted (· ≤ ·) :=
  List.sorted_insertionSort (· ≤ ·) l

theorem sort_length (l : List Int) : (l.insertionSort (· ≤ ·)).length = l.length :=
  List.length_insertionSort (· ≤ ·) l

theorem sort_perm (l : List Int) : (l.insertionSort (· ≤ ·)).Perm l :=
  List.perm_insertionSort (· ≤ ·) l

theorem fmod_one (x : ℚ) (hx : 0 ≤ x) : fmod x 1 = Int.fract x := by
  unfold fmod
  simp only [div_one]
  rw [if_pos hx, one_mul]
  rfl

theorem at_index_ok (l : List Int) (i : Int) (h0 : 0 ≤ i) (h1 : i < l.length) :
    at_index l i = Except.ok (l.getD i.toNat 0) := by
  unfold at_index
  have h2 : i.toNat < l.length := by omega
  simp [h0, List.getElem?_eq_getElem h2, List.getD_eq_getElem l 0 h2]

theorem at_index_err (l : List Int) (i : Int) (h : i < 0 ∨ (l.length : Int) ≤ i) :
    at_index l i = Except.error (Fault.out_of_bounds i l.length) := by
  unfold at_index
  by_cases h0 : 0 ≤ i
  · have h2 : l.length ≤ i.toNat := by omega
    simp [h0, List.getElem?_eq_none h2]
  · simp [h0]

theorem rank_ge_one (n p : ℚ) (hn : 1 ≤ n) : 1 ≤ percentile_rank n p := by
  unfold percentile_rank
  have hpos : (0 : ℚ) < n + 1 := by linarith
  split_ifs with h1 h2
  · exact le_refl 1
  · have := h2.1
    rw [gt_iff_lt, div_lt_iff₀ hpos] at this
    linarith
  · exact hn

theorem rank_le (n p : ℚ) (hn : 1 ≤ n) : percentile_rank n p ≤ n := by
  unfold percentile_rank
  have hpos : (0 : ℚ) < n + 1 := by linarith
  split_ifs with h1 h2
  · exact hn
  · have := h2.2
    rw [lt_div_iff₀ hpos] at this
    linarith
  · exact le_refl n

theorem rank_hi (n p : ℚ) (hn : 1 ≤ n) (hp : n / (n + 1) ≤ p) : percentile_rank n p = n := by
  have hpos : (0 : ℚ) < n + 1 := by linarith
  unfold percentile_rank
  split_ifs with h1 h2
  · have h3 : n / (n + 1) ≤ 1 / (n + 1) := le_trans hp h1
    rw [div_le_div_iff_of_pos_right hpos] at h3
    linarith
  · exact absurd hp (not_le.mpr h2.2)
  · rfl

theorem rank_mid (n p : ℚ) (h1 : 1 / (n + 1) < p) (h2 : p < n / (n + 1)) :
    percentile_rank n p = p * (n + 1) := by
  unfold percentile_rank
  rw [if_neg (not_le.mpr h1), if_pos ⟨h1, h2⟩]

theorem rank_lo (n p : ℚ) (h1 : p ≤ 1 / (n + 1)) : percentile_rank n p = 1 := by
  unfold percentile_rank
  rw [if_pos h1]

theorem rank_mono (n p q : ℚ) (hn : 1 ≤ n) (hpq : p ≤ q) :
    percentile_rank n p ≤ percentile_rank n q := by
  have hpos : (0 : ℚ) < n + 1 := by linarith
  rcases le_or_lt (n / (n + 1)) q with hq | hq
  · rw [rank_hi n q hn hq]
    exact rank_le n p hn
  · rcases le_or_lt q (1 / (n + 1)) with hq1 | hq1
    · rw [rank_lo n q hq1, rank_lo n p (le_trans hpq hq1)]
    · rcases le_or_lt p (1 / (n + 1)) with hp1 | hp1
      · rw [rank_lo n p hp1]
        exact rank_ge_one n q hn
      · rw [rank_mid n q hq1 hq, rank_mid n p hp1 (lt_of_le_of_lt hpq hq)]
        exact mul_le_mul_of_nonneg_right hpq hpos.le

/-- Under the precondition (non-empty vector, `0 ≤ p ≤ 1`) both reads of
`compute_percentile` are in range and the result is the interpolated value. -/
theorem compute_percentile_eq (s : List Int) (p : ℚ) (hs : s ≠ []) (h0 : 0 ≤ p) (h1 : p ≤ 1) :
    compute_percentile s p =
      Except.ok (interp (s.insertionSort (· ≤ ·)) (percentile_rank (s.length : ℚ) p)) := by
  have hlen : 1 ≤ s.length := List.length_pos.mpr hs
  have hn : (1 : ℚ) ≤ (s.length : ℚ) := by exact_mod_cast hlen
  have hx1 := rank_ge_one (s.length : ℚ) p hn
  have hx2 := rank_le (s.length : ℚ) p hn
  have hf1 : 1 ≤ ⌊percentile_rank (s.length : ℚ) p⌋ := Int.le_floor.mpr (by exact_mod_cast hx1)
  have hf2 : ⌊percentile_rank (s.length : ℚ) p⌋ ≤ (s.length : Int) := by
    have := Int.floor_mono hx2
    simpa using this
  unfold compute_percentile
  simp only [sort_length, ge_iff_le, h0, h1, and_self, if_true, percentile_index]
  rw [at_index_ok _ _ (by omega) (by rw [sort_length]; omega)]
  simp only [fmod_one _ (le_trans zero_le_one hx1)]
  by_cases hr : Int.fract (percentile_rank (s.length : ℚ) p) = 0
  · simp [hr, interp]
  · have hne : percentile_rank (s.length : ℚ) p ≠ (s.length : ℚ) := by
      intro h
      apply hr
      rw [h]
      exact Int.fract_natCast _
    have hlt : percentile_rank (s.length : ℚ) p < ((s.length : Int) : ℚ) := by
      exact_mod_cast lt_of_le_of_ne hx2 hne
    have hf3 : ⌊percentile_rank (s.length : ℚ) p⌋ < (s.length : Int) := Int.floor_lt.mpr hlt
    rw [at_index_ok _ _ (by omega) (by rw [sort_length]; omega)]
    simp [hr, interp]

theorem sorted_getD_le (l : List Int) (hl : l.Sorted (· ≤ ·)) (i j : Int) (h0 : 0 ≤ i)
    (hij : i ≤ j) (hj : j < l.length) :
    (l.getD i.toNat 0 : ℚ) ≤ (l.getD j.toNat 0 : ℚ) := by
  have hi2 : i.toNat < l.length := by omega
  have hj2 : j.toNat < l.length := by omega
  rw [List.getD_eq_getElem l 0 hi2, List.getD_eq_getElem l 0 hj2]
  have h : (⟨i.toNat, hi2⟩ : Fin l.length) ≤ ⟨j.toNat, hj2⟩ := by
    simp only [Fin.mk_le_mk]
    omega
  have := hl.rel_get_of_le h
  simp only [List.get_eq_getElem] at this
  exact_mod_cast this

theorem interp_lower (l : List Int) (hl : l.Sorted (· ≤ ·)) (y : ℚ) (h1 : 1 ≤ y)
    (h2 : y ≤ (l.length : ℚ)) : (l.getD (⌊y⌋ - 1).toNat 0 : ℚ) ≤ interp l y := by
  unfold interp
  have hf1 : 1 ≤ ⌊y⌋ := Int.le_floor.mpr (by exact_mod_cast h1)
  rcases eq_or_lt_of_le h2 with h | h
  · have : Int.fract y = 0 := by rw [h]; exact Int.fract_natCast _
    rw [this]
    simp
  · have hf3 : ⌊y⌋ < (l.length : Int) := Int.floor_lt.mpr (by exact_mod_cast h)
    have hs := sorted_getD_le l hl (⌊y⌋ - 1) ⌊y⌋ (by omega) (by omega) hf3
    have hr := Int.fract_nonneg y
    nlinarith

theorem interp_upper (l : List Int) (hl : l.Sorted (· ≤ ·)) (x : ℚ) (h1 : 1 ≤ x)
    (h2 : x < (l.length : ℚ)) : interp l x ≤ (l.getD ⌊x⌋.toNat 0 : ℚ) := by
  unfold interp
  have hf1 : 1 ≤ ⌊x⌋ := Int.le_floor.mpr (by exact_mod_cast h1)
  have hf3 : ⌊x⌋ < (l.length : Int) := Int.floor_lt.mpr (by exact_mod_cast h2)
  have hs := sorted_getD_le l hl (⌊x⌋ - 1) ⌊x⌋ (by omega) (by omega) hf3
  have hr := Int.fract_lt_one x
  nlinarith

theorem interp_mono (l : List Int) (hl : l.Sorted (· ≤ ·)) (x y : ℚ) (h1 : 1 ≤ x)
    (hxy : x ≤ y) (h2 : y ≤ (l.length : ℚ)) : interp l x ≤ interp l y := by
  rcases eq_or_lt_of_le hxy with h | h
  · rw [h]
  · have hxn : x < (l.length : ℚ) := lt_of_lt_of_le h h2
    have hf1 : 1 ≤ ⌊x⌋ := Int.le_floor.mpr (by exact_mod_cast h1)
    have hf3 : ⌊x⌋ < (l.length : Int) := Int.floor_lt.mpr (by exact_mod_cast hxn)
    have hfm : ⌊x⌋ ≤ ⌊y⌋ := Int.floor_mono hxy
    rcases eq_or_lt_of_le hfm with e | e
    · unfold interp
      rw [← e]
      have hs := sorted_getD_le l hl (⌊x⌋ - 1) ⌊x⌋ (by omega) (by omega) hf3
      have hfr : Int.fract x ≤ Int.fract y := by
        have ex : Int.fract x = x - (⌊x⌋ : ℚ) := rfl
        have ey : Int.fract y = y - (⌊y⌋ : ℚ) := rfl
        rw [ex, ey, ← e]
        linarith
      nlinarith
    · have hfy : ⌊y⌋ ≤ (l.length : Int) := by
        have := Int.floor_mono h2
        simpa using this
      calc interp l x ≤ (l.getD ⌊x⌋.toNat 0 : ℚ) := interp_upper l hl x h1 hxn
        _ ≤ (l.getD (⌊y⌋ - 1).toNat 0 : ℚ) :=
            sorted_getD_le l hl ⌊x⌋ (⌊y⌋ - 1) (by omega) (by omega) (by omega)
        _ ≤ interp l y := interp_lower l hl y (le_trans h1 hxy) h2

theorem compute_percentile_nil (p : ℚ) (h0 : 0 ≤ p) (h1 : p ≤ 1) :
    compute_percentile [] p = Except.error (Fault.out_of_bounds 0 0) := by
  have hr : percentile_rank ((([] : List Int).insertionSort (· ≤ ·)).length : ℚ) p = 1 := by
    apply rank_lo
    simpa using h1
  unfold compute_percentile
  simp only [ge_iff_le, h0, h1, and_self, if_true, hr]
  rfl

theorem foldl_add_cast (l : List Int) (a : ℚ) :
    l.foldl (fun (sum : ℚ) (m : Int) => sum + (m : ℚ)) a = a + ((l.sum : Int) : ℚ) := by
  induction l generalizing a with
  | nil => simp
  | cons x xs ih =>
    simp only [List.foldl_cons, List.sum_cons, ih]
    push_cast
    ring

theorem compute_mean_eq (s : List Int) (hs : s ≠ []) :
    compute_mean s = some (((s.sum : Int) : ℚ) / (s.length : ℚ)) := by
  have hlen : (s.length : ℚ) ≠ 0 := by
    have : s.length ≠ 0 := fun h => hs (List.length_eq_zero.mp h)
    exact_mod_cast this
  unfold compute_mean fdiv
  simp only [foldl_add_cast, zero_add, if_neg hlen]

theorem sum_of_all_eq (l : List Int) (c : Int) (h : ∀ a ∈ l, a = c) :
    l.sum = (l.length : Int) * c := by
  induction l with
  | nil => simp
  | cons x xs ih =>
    have hx : x = c := h x (List.mem_cons_self x xs)
    have := ih (fun a ha => h a (List.mem_cons_of_mem x ha))
    simp only [List.sum_cons, List.length_cons, this, hx]
    push_cast
    ring

theorem getD_of_all_eq (l : List Int) (c : Int) (h : ∀ a ∈ l, a = c) (i : Nat)
    (hi : i < l.length) : l.getD i 0 = c := by
  rw [List.getD_eq_getElem l 0 hi]
  exact h _ (List.getElem_mem hi)

theorem interp_of_all_eq (l : List Int) (c : Int) (h : ∀ a ∈ l, a = c) (x : ℚ) (h1 : 1 ≤ x)
    (h2 : x ≤ (l.length : ℚ)) : interp l x = (c : ℚ) := by
  have hf1 : 1 ≤ ⌊x⌋ := Int.le_floor.mpr (by exact_mod_cast h1)
  have hf2 : ⌊x⌋ ≤ (l.length : Int) := by
    have := Int.floor_mono h2
    simpa using this
  unfold interp
  rw [getD_of_all_eq l c h (⌊x⌋ - 1).toNat (by omega)]
  rcases eq_or_lt_of_le h2 with e | e
  · have : Int.fract x = 0 := by rw [e]; exact Int.fract_natCast _
    rw [this]
    simp
  · have hf3 : ⌊x⌋ < (l.length : Int) := Int.floor_lt.mpr (by exact_mod_cast e)
    rw [getD_of_all_eq l c h ⌊x⌋.toNat (by omega)]
    simp

theorem compute_percentile_of_all_eq (l : List Int) (c : Int) (hl : l ≠ [])
    (h : ∀ a ∈ l, a = c) (p : ℚ) (h0 : 0 ≤ p) (h1 : p ≤ 1) :
    compute_percentile l p = Except.ok (c : ℚ) := by
  have hlen : 1 ≤ l.length := List.length_pos.mpr hl
  have hn : (1 : ℚ) ≤ (l.length : ℚ) := by exact_mod_cast hlen
  rw [compute_percentile_eq l p hl h0 h1]
  congr 1
  apply interp_of_all_eq
  · intro a ha
    exact h a ((sort_perm l).mem_iff.mp ha)
  · exact rank_ge_one _ p hn
  · rw [sort_length]
    exact rank_le _ p hn

theorem compute_mean_of_all_eq (l : List Int) (c : Int) (hl : l ≠ []) (h : ∀ a ∈ l, a = c) :
    compute_mean l = some (c : ℚ) := by
  have hlen : (l.length : ℚ) ≠ 0 := by
    have : l.length ≠ 0 := fun h => hl (List.length_eq_zero.mp h)
    exact_mod_cast this
  rw [compute_mean_eq l hl, sum_of_all_eq l c h]
  push_cast
  rw [mul_div_assoc, mul_comm, div_mul_cancel₀ _ hlen]

theorem spec_rank_eq (n p : ℚ) : spec_rank n p = percentile_rank n p := by
  unfold spec_rank percentile_rank
  split_ifs with h1 h2 h3 h4 <;> first | rfl | skip
  · exact absurd ⟨lt_of_not_le h1, h2⟩ h3
  · exact absurd h4.2 h2

theorem spec_eq_interp (s : List Int) (p : ℚ) :
    computePercentile_spec s p =
      interp (s.insertionSort (· ≤ ·)) (percentile_rank (s.length : ℚ) p) := by
  have hsort : s.mergeSort (fun a b => decide (a ≤ b)) = s.insertionSort (· ≤ ·) :=
    List.mergeSort_eq_insertionSort (· ≤ ·) s
  unfold computePercentile_spec interp
  simp only [hsort, sort_length, spec_rank_eq]
  split_ifs with h
  · rfl
  · rw [not_not] at h
    rw [h]
    ring

theorem sort_eq_of_perm (s t : List Int) (h : s.Perm t) :
    s.insertionSort (· ≤ ·) = t.insertionSort (· ≤ ·) :=
  List.eq_of_perm_of_sorted (((sort_perm s).trans h).trans (sort_perm t).symm)
    (sort_sorted s) (sort_sorted t)

theorem interp_at_one (l : List Int) : interp l 1 = (l.getD 0 0 : ℚ) := by
  unfold interp
  simp

theorem interp_at_length (l : List Int) :
    interp l (l.length : ℚ) = (l.getD (l.length - 1) 0 : ℚ) := by
  unfold interp
  have h : ((l.length : Int) - 1).toNat = l.length - 1 := by omega
  simp [h]

/-! ### The two loops of a round -/

theorem submit_loop_spec {σ φ γ : Type} (w : World σ φ γ) (k : Nat) (l : Locals σ φ γ) :
    ∃ fs : List φ, fs.length = k ∧
      (submit_loop w k l).preds = l.preds ++ fs ∧
      (submit_loop w k l).log = l.log ++ fs.map Event.submit ∧
      (submit_loop w k l).durations = l.durations ∧
      (submit_loop w k l).completed_tasks_sum = l.completed_tasks_sum := by
  induction k generalizing l with
  | zero => exact ⟨[], rfl, by simp [submit_loop], by simp [submit_loop], rfl, rfl⟩
  | succ k ih =>
    obtain ⟨fs, h1, h2, h3, h4, h5⟩ := ih
      { l with state := (w.predict l.state (generate_query w 1000 l.gen).1).1,
               log := l.log ++ [Event.submit (w.predict l.state (generate_query w 1000 l.gen).1).2],
               gen := (generate_query w 1000 l.gen).2,
               preds := l.preds ++ [(w.predict l.state (generate_query w 1000 l.gen).1).2] }
    refine ⟨(w.predict l.state (generate_query w 1000 l.gen).1).2 :: fs, by simp [h1], ?_, ?_, ?_, ?_⟩
    · simp only [submit_loop]
      rw [h2]
      simp
    · simp only [submit_loop]
      rw [h3]
      simp
    · simp only [submit_loop]
      rw [h4]
    · simp only [submit_loop]
      rw [h5]

theorem await_loop_resolves {σ φ γ : Type} (w : World σ φ γ) (ps : List φ) (rs : List Response)
    (l : Locals σ φ γ) (t : σ) (h : Resolves w l.state ps rs t) :
    (await_loop w ps l).2 = none ∧
      (await_loop w ps l).1.state = t ∧
      (await_loop w ps l).1.log = l.log ++ ps.map Event.await ∧
      (await_loop w ps l).1.durations = l.durations ++ rs.map Response.duration_micros_ ∧
      (await_loop w ps l).1.completed_tasks_sum =
        l.completed_tasks_sum + (rs.map (fun r => r.output_.y_hat_)).sum ∧
      rs.length = ps.length := by
  induction ps generalizing l rs with
  | nil =>
    cases h
    simp [await_loop]
  | cons p rest ih =>
    cases h with
    | cons hg hrest =>
      rename_i s1 r rs1
      obtain ⟨h1, h2, hlog, h3, h4, h5⟩ := ih rs1
        { l with state := s1, log := l.log ++ [Event.await p],
                 durations := l.durations ++ [r.duration_micros_],
                 completed_tasks_sum := l.completed_tasks_sum + r.output_.y_hat_ } hrest
      simp only [await_loop, hg]
      refine ⟨h1, h2, ?_, ?_, ?_, by simp [h5]⟩
      · rw [hlog]
        simp
      · rw [h3]
        simp
      · rw [h4]
        simp [add_assoc]

theorem after_submit_spec {σ φ γ : Type} (w : World σ φ γ) (s : σ) (n : Int) :
    (after_submit w s n).preds.length = n.toNat ∧
      (after_submit w s n).log = (after_submit w s n).preds.map Event.submit ∧
      (after_submit w s n).durations = [] ∧
      (after_submit w s n).completed_tasks_sum = 0 := by
  obtain ⟨fs, h1, h2, h3, h4, h5⟩ :=
    submit_loop_spec w n.toNat ⟨(w.now s).1, [], w.mt19937 (w.time s), [], [], 0⟩
  unfold after_submit
  rw [h2, h3, h4, h5]
  simp [h1]

theorem report_round_trace {σ φ γ : Type} (w : World σ φ γ) (n start : Int)
    (l : Locals σ φ γ) :
    (report_round w n start l).trace = l.log ∧ (report_round w n start l).durations = l.durations := by
  unfold report_round
  simp only
  split <;> exact ⟨rfl, rfl⟩

theorem report_round_ok {σ φ γ : Type} (w : World σ φ γ) (n start : Int) (l : Locals σ φ γ)
    (p99 : ℚ) (h : compute_percentile l.durations (99 / 100) = Except.ok p99) :
    ∃ r : Report, (report_round w n start l).result = Except.ok r ∧ r.num_requests = n ∧
      r.p99 = p99 ∧ r.mean_lat = compute_mean l.durations ∧
      r.mean_tasks_completed = fdiv l.completed_tasks_sum (n : ℚ) := by
  unfold report_round
  simp only [h]
  exact ⟨_, rfl, rfl, rfl, rfl, rfl⟩

theorem report_round_error {σ φ γ : Type} (w : World σ φ γ) (n start : Int) (l : Locals σ φ γ)
    (e : Fault) (h : compute_percentile l.durations (99 / 100) = Except.error e) :
    (report_round w n start l).result = Except.error e := by
  unfold report_round
  simp only [h]

theorem run_benchmark_durations {σ φ γ : Type} (w : World σ φ γ) (s : σ) (n : Int) :
    (run_benchmark w s n).durations =
      (await_loop w (after_submit w s n).preds (after_submit w s n)).1.durations := by
  unfold run_benchmark
  simp only
  split
  · rfl
  · exact (report_round_trace w n _ _).2

theorem run_benchmark_result {σ φ γ : Type} (w : World σ φ γ) (s : σ) (n : Int)
    (h : (await_loop w (after_submit w s n).preds (after_submit w s n)).2 = none) :
    run_benchmark w s n =
      report_round w n (w.now s).2
        (await_loop w (after_submit w s n).preds (after_submit w s n)).1 := by
  unfold run_benchmark
  simp only [h]

/-! ## The statistics: claims C1-C4, C9, C10 -/

/-- C1: `compute_percentile` is monotonic non-decreasing in `p`: for a non-empty sample
sequence and `0 ≤ p1 ≤ p2 ≤ 1` both calls return a value, and the value at `p1` is at most
the value at `p2`. -/
theorem compute_percentile_mono (s : List Int) (p1 p2 : ℚ) (hs : s ≠ []) (h0 : 0 ≤ p1)
    (h12 : p1 ≤ p2) (h1 : p2 ≤ 1) :
    ∃ v1 v2 : ℚ, compute_percentile s p1 = Except.ok v1 ∧
      compute_percentile s p2 = Except.ok v2 ∧ v1 ≤ v2 := by
  have hlen : 1 ≤ s.length := List.length_pos.mpr hs
  have hn : (1 : ℚ) ≤ (s.length : ℚ) := by exact_mod_cast hlen
  refine ⟨_, _, compute_percentile_eq s p1 hs h0 (le_trans h12 h1),
    compute_percentile_eq s p2 hs (le_trans h0 h12) h1, ?_⟩
  apply interp_mono _ (sort_sorted s) _ _ (rank_ge_one _ p1 hn) (rank_mono _ p1 p2 hn h12)
  rw [sort_length]
  exact rank_le _ p2 hn

theorem compute_percentile_mono_witness :
    ∃ v1 v2 : ℚ, compute_percentile [30, 10, 20] (1 / 4) = Except.ok v1 ∧
      compute_percentile [30, 10, 20] (3 / 5) = Except.ok v2 ∧ v1 ≤ v2 :=
  compute_percentile_mono [30, 10, 20] (1 / 4) (3 / 5) (by decide) (by norm_num) (by norm_num)
    (by norm_num)

/-- C2: for a non-empty sample sequence, `compute_percentile` at `p = 0` returns the minimum
sample and at `p = 1` the maximum sample. -/
theorem compute_percentile_extremes (s : List Int) (hs : s ≠ []) :
    ∃ lo hi : Int, lo ∈ s ∧ hi ∈ s ∧ (∀ a ∈ s, lo ≤ a ∧ a ≤ hi) ∧
      compute_percentile s 0 = Except.ok (lo : ℚ) ∧
      compute_percentile s 1 = Except.ok (hi : ℚ) := by
  have hlen : 1 ≤ s.length := List.length_pos.mpr hs
  have hn : (1 : ℚ) ≤ (s.length : ℚ) := by exact_mod_cast hlen
  have hpos : (0 : ℚ) < (s.length : ℚ) + 1 := by linarith
  have hsl := sort_length s
  have hr0 : percentile_rank (s.length : ℚ) 0 = 1 :=
    rank_lo _ 0 (div_nonneg zero_le_one hpos.le)
  have hr1 : percentile_rank (s.length : ℚ) 1 = (s.length : ℚ) :=
    rank_hi _ 1 hn (by rw [div_le_one hpos]; linarith)
  have hi0 : 0 < (s.insertionSort (· ≤ ·)).length := by omega
  have hi1 : s.length - 1 < (s.insertionSort (· ≤ ·)).length := by omega
  refine ⟨(s.insertionSort (· ≤ ·)).getD 0 0, (s.insertionSort (· ≤ ·)).getD (s.length - 1) 0,
    ?_, ?_, ?_, ?_, ?_⟩
  · rw [List.getD_eq_getElem _ 0 hi0]
    exact (sort_perm s).mem_iff.mp (List.getElem_mem hi0)
  · rw [List.getD_eq_getElem _ 0 hi1]
    exact (sort_perm s).mem_iff.mp (List.getElem_mem hi1)
  · intro a ha
    obtain ⟨j, hj, rfl⟩ := List.getElem_of_mem ((sort_perm s).mem_iff.mpr ha)
    have e : (s.insertionSort (· ≤ ·))[j] = (s.insertionSort (· ≤ ·)).getD ((j : Int)).toNat 0 := by
      rw [Int.toNat_ofNat, List.getD_eq_getElem _ 0 hj]
    have lo := sorted_getD_le _ (sort_sorted s) 0 (j : Int) (le_refl 0) (by omega) (by omega)
    have hi := sorted_getD_le _ (sort_sorted s) (j : Int) ((s.length - 1 : Nat) : Int)
      (by omega) (by omega) (by omega)
    rw [e]
    constructor
    · exact_mod_cast lo
    · exact_mod_cast hi
  · rw [compute_percentile_eq s 0 hs (le_refl 0) zero_le_one, hr0, interp_at_one]
  · rw [compute_percentile_eq s 1 hs zero_le_one (le_refl 1), hr1, ← hsl, interp_at_length, hsl]

theorem compute_percentile_extremes_witness :
    ∃ lo hi : Int, lo ∈ [30, 10, 20] ∧ hi ∈ [30, 10, 20] ∧
      (∀ a ∈ [30, 10, 20], lo ≤ a ∧ a ≤ hi) ∧
      compute_percentile [30, 10, 20] 0 = Except.ok (lo : ℚ) ∧
      compute_percentile [30, 10, 20] 1 = Except.ok (hi : ℚ) :=
  compute_percentile_extremes [30, 10, 20] (by decide)

/-- C3: `compute_percentile` equals the reference estimator of the specification on every
non-empty sample sequence and every `p` in `[0, 1]`; on `[10, 20, 30, 40, 50]` it returns
`30` for `p = 0.5` and `50` for `p = 0.99`. -/
theorem compute_percentile_refines_spec :
    (∀ (s : List Int) (p : ℚ), s ≠ [] → 0 ≤ p → p ≤ 1 →
      compute_percentile s p = Except.ok (computePercentile_spec s p)) ∧
    compute_percentile [10, 20, 30, 40, 50] (1 / 2) = Except.ok 30 ∧
    compute_percentile [10, 20, 30, 40, 50] (99 / 100) = Except.ok 50 := by
  have hsort : ([10, 20, 30, 40, 50] : List Int).insertionSort (· ≤ ·) = [10, 20, 30, 40, 50] := by
    decide
  refine ⟨?_, ?_, ?_⟩
  · intro s p hs h0 h1
    rw [compute_percentile_eq s p hs h0 h1, spec_eq_interp]
  · rw [compute_percentile_eq _ _ (by decide) (by norm_num) (by norm_num), hsort]
    have hr : percentile_rank (([10, 20, 30, 40, 50] : List Int).length : ℚ) (1 / 2) = 3 := by
      rw [rank_mid _ _ (by norm_num) (by norm_num)]
      norm_num
    have hf : ⌊(3 : ℚ)⌋ = 3 := Int.floor_ofNat 3
    have e1 : ((3 : Int) - 1).toNat = 2 := rfl
    have e2 : (3 : Int).toNat = 3 := rfl
    rw [hr]
    unfold interp
    rw [hf, e1, e2]
    norm_num
  · rw [compute_percentile_eq _ _ (by decide) (by norm_num) (by norm_num), hsort]
    have hr : percentile_rank (([10, 20, 30, 40, 50] : List Int).length : ℚ) (99 / 100) = 5 := by
      rw [rank_hi _ _ (by norm_num) (by norm_num)]
      norm_num
    have hf : ⌊(5 : ℚ)⌋ = 5 := Int.floor_ofNat 5
    have e1 : ((5 : Int) - 1).toNat = 4 := rfl
    have e2 : (5 : Int).toNat = 5 := rfl
    rw [hr]
    unfold interp
    rw [hf, e1, e2]
    norm_num

theorem compute_percentile_refines_spec_witness :
    compute_percentile [7, 3] (2 / 5) = Except.ok (computePercentile_spec [7, 3] (2 / 5)) :=
  compute_percentile_refines_spec.1 [7, 3] (2 / 5) (by decide) (by norm_num) (by norm_num)

/-- C4: `compute_mean` of a non-empty sequence is the sum of the samples divided by their
count; of a single-element sequence `[a]` it is `a`. -/
theorem compute_mean_is_sum_div_count :
    (∀ s : List Int, s ≠ [] → compute_mean s = some (((s.sum : Int) : ℚ) / (s.length : ℚ))) ∧
    (∀ a : Int, compute_mean [a] = some (a : ℚ)) := by
  refine ⟨compute_mean_eq, ?_⟩
  intro a
  rw [compute_mean_eq [a] (by simp)]
  simp

theorem compute_mean_is_sum_div_count_witness :
    compute_mean [10, 20, 60] = some ((([10, 20, 60] : List Int).sum : ℚ) / 3) :=
  compute_mean_is_sum_div_count.1 [10, 20, 60] (by decide)

/-- C9: the statistics are order-independent: for a non-empty sample sequence `s`, a
permutation `t` of `s` and `p` in `[0, 1]`, `compute_percentile` and `compute_mean` give on
`t` what they give on `s`. -/
theorem statistics_order_independent (s t : List Int) (p : ℚ) (hs : s ≠ []) (ht : t.Perm s)
    (h0 : 0 ≤ p) (h1 : p ≤ 1) :
    compute_percentile t p = compute_percentile s p ∧ compute_mean t = compute_mean s := by
  have hne : t ≠ [] := fun h => hs (by simpa [h] using ht.symm)
  constructor
  · rw [compute_percentile_eq t p hne h0 h1, compute_percentile_eq s p hs h0 h1,
      sort_eq_of_perm t s ht, ht.length_eq]
  · rw [compute_mean_eq t hne, compute_mean_eq s hs, ht.sum_eq, ht.length_eq]

theorem statistics_order_independent_witness :
    compute_percentile [20, 30, 10] (1 / 2) = compute_percentile [10, 20, 30] (1 / 2) ∧
      compute_mean [20, 30, 10] = compute_mean [10, 20, 30] :=
  statistics_order_independent [10, 20, 30] [20, 30, 10] (1 / 2) (by decide) (by decide)
    (by norm_num) (by norm_num)

/-- C10: under the precondition (a sample sequence of length `n ≥ 1`, `0 ≤ p ≤ 1`) the index
`⌊x⌋ - 1` of `compute_percentile` lies in `0 .. n - 1`, the index `⌊x⌋` lies in range whenever
the remainder of `x` is non-zero, both reads succeed and a value is returned; on the empty
sequence the index is `0` and the read `measurements[0]` is out of bounds. -/
theorem compute_percentile_index_in_bounds :
    (∀ (s : List Int) (p : ℚ), s ≠ [] → 0 ≤ p → p ≤ 1 →
      0 ≤ percentile_index (percentile_rank (s.length : ℚ) p) ∧
      percentile_index (percentile_rank (s.length : ℚ) p) ≤ (s.length : Int) - 1 ∧
      (fmod (percentile_rank (s.length : ℚ) p) 1 ≠ 0 →
        percentile_index (percentile_rank (s.length : ℚ) p) + 1 ≤ (s.length : Int) - 1) ∧
      (∃ m, at_index (s.insertionSort (· ≤ ·))
        (percentile_index (percentile_rank (s.length : ℚ) p)) = Except.ok m) ∧
      (fmod (percentile_rank (s.length : ℚ) p) 1 ≠ 0 →
        ∃ m, at_index (s.insertionSort (· ≤ ·))
          (percentile_index (percentile_rank (s.length : ℚ) p) + 1) = Except.ok m) ∧
      ∃ v, compute_percentile s p = Except.ok v) ∧
    (∀ p : ℚ, 0 ≤ p → p ≤ 1 →
      percentile_index (percentile_rank ((([] : List Int).length : Nat) : ℚ) p) = 0 ∧
      compute_percentile [] p = Except.error (Fault.out_of_bounds 0 0)) := by
  constructor
  · intro s p hs h0 h1
    have hlen : 1 ≤ s.length := List.length_pos.mpr hs
    have hn : (1 : ℚ) ≤ (s.length : ℚ) := by exact_mod_cast hlen
    have hx1 := rank_ge_one (s.length : ℚ) p hn
    have hx2 := rank_le (s.length : ℚ) p hn
    have hf1 : 1 ≤ ⌊percentile_rank (s.length : ℚ) p⌋ := Int.le_floor.mpr (by exact_mod_cast hx1)
    have hf2 : ⌊percentile_rank (s.length : ℚ) p⌋ ≤ (s.length : Int) := by
      have := Int.floor_mono hx2
      simpa using this
    have hfr : fmod (percentile_rank (s.length : ℚ) p) 1 ≠ 0 →
        ⌊percentile_rank (s.length : ℚ) p⌋ < (s.length : Int) := by
      intro hr
      rw [fmod_one _ (le_trans zero_le_one hx1)] at hr
      have hne : percentile_rank (s.length : ℚ) p ≠ (s.length : ℚ) := by
        intro h
        apply hr
        rw [h]
        exact Int.fract_natCast _
      have hlt : percentile_rank (s.length : ℚ) p < ((s.length : Int) : ℚ) := by
        exact_mod_cast lt_of_le_of_ne hx2 hne
      exact Int.floor_lt.mpr hlt
    unfold percentile_index
    refine ⟨by omega, by omega, fun hr => by have := hfr hr; omega, ?_, ?_, ?_⟩
    · exact ⟨_, at_index_ok _ _ (by omega) (by rw [sort_length]; omega)⟩
    · intro hr
      have := hfr hr
      exact ⟨_, at_index_ok _ _ (by omega) (by rw [sort_length]; omega)⟩
    · exact ⟨_, compute_percentile_eq s p hs h0 h1⟩
  · intro p h0 h1
    refine ⟨?_, compute_percentile_nil p h0 h1⟩
    have hr : percentile_rank ((([] : List Int).length : Nat) : ℚ) p = 1 := by
      apply rank_lo
      simpa using h1
    rw [hr]
    unfold percentile_index
    simp

theorem compute_percentile_index_in_bounds_witness :
    ∃ v, compute_percentile [30, 10, 20] (7 / 10) = Except.ok v :=
  (compute_percentile_index_in_bounds.1 [30, 10, 20] (7 / 10) (by decide) (by norm_num)
    (by norm_num)).2.2.2.2.2

/-! ## The round and the driver: claims C5-C8 -/

theorem run_benchmark_nonpos {σ φ γ : Type} (w : World σ φ γ) (s : σ) (n : Int) (hn : n ≤ 0) :
    (run_benchmark w s n).result = Except.error (Fault.out_of_bounds 0 0) ∧
      (run_benchmark w s n).trace = [] ∧ (run_benchmark w s n).durations = [] ∧
      (run_benchmark w s n).state = (w.now (w.now s).1).1 := by
  have h0 : n.toNat = 0 := by omega
  have hsub : after_submit w s n = ⟨(w.now s).1, [], w.mt19937 (w.time s), [], [], 0⟩ := by
    unfold after_submit
    rw [h0]
    rfl
  have hrun : run_benchmark w s n =
      report_round w n (w.now s).2 ⟨(w.now s).1, [], w.mt19937 (w.time s), [], [], 0⟩ := by
    rw [run_benchmark_result w s n (by rw [hsub]; rfl), hsub]
    rfl
  have hp := compute_percentile_nil (99 / 100) (by norm_num) (by norm_num)
  rw [hrun]
  refine ⟨report_round_error w n _ _ _ hp, (report_round_trace w n _ _).1,
    (report_round_trace w n _ _).2, ?_⟩
  unfold report_round
  simp only [hp]

/-- C5 (the code does otherwise): on the input line `0`, and on the input line `-5`,
`drive_benchmark` calls `run_benchmark` with that count; the round submits nothing,
evaluates `compute_percentile` on the empty sample set, and ends in the out-of-bounds read
`measurements[0]`; the driver does not prompt again. -/
theorem drive_benchmark_zero_requests {σ φ γ : Type} (w : World σ φ γ) (s : σ) :
    ((drive_benchmark w s ["0"]).calls = [0] ∧
      (drive_benchmark w s ["0"]).fault = some (Fault.out_of_bounds 0 0) ∧
      (drive_benchmark w s ["0"]).out = [Printed.prompt, Printed.running]) ∧
    ((drive_benchmark w s ["-5"]).calls = [-5] ∧
      (drive_benchmark w s ["-5"]).fault = some (Fault.out_of_bounds 0 0) ∧
      (drive_benchmark w s ["-5"]).out = [Printed.prompt, Printed.running]) := by
  have e0 : stoi "0" = StoiResult.value 0 := by decide
  have e5 : stoi "-5" = StoiResult.value (-5) := by decide
  have r0 := (run_benchmark_nonpos w (w.sleep_for 3 s) 0 (le_refl 0)).1
  have r5 := (run_benchmark_nonpos w (w.sleep_for 3 s) (-5) (by decide)).1
  constructor
  · simp [drive_benchmark, drive_loop, e0, r0]
  · simp [drive_benchmark, drive_loop, e5, r5]

/-- C6: for `k ≥ 1` and a backend whose `k` futures all resolve, with the responses `rs`, the
round submits `k` requests and collects exactly `k` samples, the `i`-th sample being the
`duration_micros_` of the response to the `i`-th submitted request, and the report carries
the request count `k`. -/
theorem run_benchmark_collects_every_response {σ φ γ : Type} (w : World σ φ γ) (s t : σ)
    (k : Int) (rs : List Response) (hk : 1 ≤ k)
    (h : Resolves w (after_submit w s k).state (after_submit w s k).preds rs t) :
    ((after_submit w s k).preds.length : Int) = k ∧
      (run_benchmark w s k).durations = rs.map Response.duration_micros_ ∧
      ((run_benchmark w s k).durations.length : Int) = k ∧
      ∃ r : Report, (run_benchmark w s k).result = Except.ok r ∧ r.num_requests = k := by
  obtain ⟨a1, _, a3, _⟩ := after_submit_spec w s k
  obtain ⟨b1, _, _, b3, _, b5⟩ := await_loop_resolves w _ rs _ t h
  have hlen : ((after_submit w s k).preds.length : Int) = k := by omega
  have hd : (run_benchmark w s k).durations = rs.map Response.duration_micros_ := by
    rw [run_benchmark_durations, b3, a3]
    rfl
  refine ⟨hlen, hd, by rw [hd, List.length_map, b5]; exact hlen, ?_⟩
  have hne : (await_loop w (after_submit w s k).preds (after_submit w s k)).1.durations ≠ [] := by
    intro e
    have : (rs.map Response.duration_micros_).length = 0 := by
      rw [run_benchmark_durations, e] at hd
      rw [← hd]
      rfl
    rw [List.length_map] at this
    omega
  obtain ⟨r, hr, hr2, _⟩ := report_round_ok w k (w.now s).2 _ _
    (compute_percentile_eq _ (99 / 100) hne (by norm_num) (by norm_num))
  exact ⟨r, by rw [run_benchmark_result w s k b1]; exact hr, hr2⟩

theorem run_benchmark_collects_every_response_witness :
    (((after_submit constant_world 0 2).preds.length : Nat) : Int) = 2 ∧
      (run_benchmark constant_world 0 2).durations =
        [(⟨100, ⟨1⟩⟩ : Response), ⟨100, ⟨1⟩⟩].map Response.duration_micros_ ∧
      ((run_benchmark constant_world 0 2).durations.length : Int) = 2 ∧
      ∃ r : Report, (run_benchmark constant_world 0 2).result = Except.ok r ∧
        r.num_requests = 2 :=
  run_benchmark_collects_every_response constant_world 0 5 2 [⟨100, ⟨1⟩⟩, ⟨100, ⟨1⟩⟩]
    (by decide) (Resolves.cons rfl (Resolves.cons rfl (Resolves.nil _)))

theorem sum_of_all_eq_rat (l : List ℚ) (v : ℚ) (h : ∀ a ∈ l, a = v) :
    l.sum = (l.length : ℚ) * v := by
  induction l with
  | nil => simp
  | cons x xs ih =>
    have hx : x = v := h x (List.mem_cons_self x xs)
    have := ih (fun a ha => h a (List.mem_cons_of_mem x ha))
    simp only [List.sum_cons, List.length_cons, this, hx]
    push_cast
    ring

/-- C7: against a backend that resolves every future of a round of `n ≥ 1` requests with the
same `duration_micros_` `c` and the same output `v`, the report has mean latency `c`, p99 `c`
and mean output `v`; and on every non-empty all-equal sample sequence
`compute_percentile _ 0.99` and `compute_mean` return that value. -/
theorem run_benchmark_constant_backend {σ φ γ : Type} (w : World σ φ γ) (s t : σ) (n : Int)
    (c : Int) (v : ℚ) (rs : List Response) (hn : 1 ≤ n)
    (h : Resolves w (after_submit w s n).state (after_submit w s n).preds rs t)
    (hc : ∀ r ∈ rs, r.duration_micros_ = c ∧ r.output_.y_hat_ = v) :
    (∃ r : Report, (run_benchmark w s n).result = Except.ok r ∧ r.mean_lat = some (c : ℚ) ∧
      r.p99 = (c : ℚ) ∧ r.mean_tasks_completed = some v) ∧
    (∀ l : List Int, l ≠ [] → (∀ a ∈ l, a = c) →
      compute_percentile l (99 / 100) = Except.ok (c : ℚ) ∧ compute_mean l = some (c : ℚ)) := by
  have hstat : ∀ l : List Int, l ≠ [] → (∀ a ∈ l, a = c) →
      compute_percentile l (99 / 100) = Except.ok (c : ℚ) ∧ compute_mean l = some (c : ℚ) :=
    fun l hl ha => ⟨compute_percentile_of_all_eq l c hl ha _ (by norm_num) (by norm_num),
      compute_mean_of_all_eq l c hl ha⟩
  refine ⟨?_, hstat⟩
  obtain ⟨a1, _, a3, a4⟩ := after_submit_spec w s n
  obtain ⟨b1, _, _, b3, b4, b5⟩ := await_loop_resolves w _ rs _ t h
  have hlen : (rs.length : Int) = n := by omega
  have hd : (await_loop w (after_submit w s n).preds (after_submit w s n)).1.durations =
      rs.map Response.duration_micros_ := by
    rw [b3, a3]
    rfl
  have hne : rs.map Response.duration_micros_ ≠ [] := by
    intro e
    have : (rs.map Response.duration_micros_).length = 0 := by rw [e]; rfl
    rw [List.length_map] at this
    omega
  have hall : ∀ a ∈ rs.map Response.duration_micros_, a = c := by
    intro a ha
    obtain ⟨r, hr, rfl⟩ := List.mem_map.mp ha
    exact (hc r hr).1
  have hsum : (await_loop w (after_submit w s n).preds (after_submit w s n)).1.completed_tasks_sum =
      (n : ℚ) * v := by
    rw [b4, a4, zero_add, sum_of_all_eq_rat _ v, List.length_map]
    · have : ((rs.length : Int) : ℚ) = (n : ℚ) := by rw [hlen]
      rw [← this]
      push_cast
      rfl
    · intro a ha
      obtain ⟨r, hr, rfl⟩ := List.mem_map.mp ha
      exact (hc r hr).2
  have hn0 : (n : ℚ) ≠ 0 := by
    have : n ≠ 0 := by omega
    exact_mod_cast this
  obtain ⟨hp, hm⟩ := hstat _ hne hall
  obtain ⟨r, hr, _, hr3, hr4, hr5⟩ := report_round_ok w n (w.now s).2
    (await_loop w (after_submit w s n).preds (after_submit w s n)).1 (c : ℚ) (by rw [hd]; exact hp)
  refine ⟨r, by rw [run_benchmark_result w s n b1]; exact hr, ?_, hr3, ?_⟩
  · rw [hr4, hd]
    exact hm
  · rw [hr5, hsum]
    unfold fdiv
    rw [if_neg hn0, mul_comm, mul_div_assoc, div_self hn0, mul_one]

theorem run_benchmark_constant_backend_witness :
    ∃ r : Report, (run_benchmark constant_world 0 10).result = Except.ok r ∧
      r.mean_lat = some ((100 : Int) : ℚ) ∧ r.p99 = ((100 : Int) : ℚ) ∧
      r.mean_tasks_completed = some 1 :=
  (run_benchmark_constant_backend constant_world 0 21 10 100 1
    (List.replicate 10 ⟨100, ⟨1⟩⟩) (by decide)
    (Resolves.cons rfl (Resolves.cons rfl (Resolves.cons rfl (Resolves.cons rfl
      (Resolves.cons rfl (Resolves.cons rfl (Resolves.cons rfl (Resolves.cons rfl
        (Resolves.cons rfl (Resolves.cons rfl (Resolves.nil _)))))))))))
    (fun r hr => by rw [List.eq_of_mem_replicate hr]; exact ⟨rfl, rfl⟩)).1

end Bench
